import Mathlib

/-!
Verification of the system-list resolution and subflake-configuration core
of the `nixci` crate (`src/crates/nixci/src/nix/system_list.rs` and
`src/crates/nixci/src/config/subflakes.rs`), as a shallow embedding.

Modelling conventions:
* machine strings are Lean `String`s;
* the external evaluation engine (the `nix` subprocess reached through
  `NixCmd::run_with_args_expecting_json`) is an oracle
  `Engine : List String → Except NixCmdError Json`; every embedded
  operation that may invoke it additionally returns the trace of
  argument vectors passed to the engine, in call order, so that claims
  about "which external invocations happen, and in what order" are
  expressible;
* the process-wide registry `NIX_SYSTEMS` (a `HashMap<String, FlakeUrl>`
  in the source) is passed explicitly as an association list; iteration
  order of the map is abstracted as the list order;
* Rust `Result<T, E>` becomes `Except E T`; `Option<T>` becomes `Option T`.
-/

namespace Omnix

/-- A platform identifier (`nix_rs::flake::system::System`); an opaque
string such as "aarch64-linux". -/
structure System where
  system : String
deriving DecidableEq, Repr

/-- A flake URL (`nix_rs::flake::url::FlakeUrl`); an opaque string. -/
structure FlakeUrl where
  url : String
deriving DecidableEq, Repr

/-- `pub struct SystemsListFlakeRef(pub FlakeUrl)` — a flake URL that
references a list of systems. -/
structure SystemsListFlakeRef where
  flakeUrl : FlakeUrl
deriving DecidableEq, Repr

/-- `pub struct SystemsList(pub Vec<System>)` — a list of systems. -/
structure SystemsList where
  systems : List System
deriving DecidableEq, Repr

/-- The registry type: name → locator, with map iteration order
abstracted as list order. -/
abbrev Registry : Type := List (String × FlakeUrl)

/-- Modelled from the spec: the content of the `NIX_SYSTEMS` registry is
embedded at build time via `env!("NIX_SYSTEMS")` and is not under `src/`.
Per the spec (§4.3: registry hits yield exactly the one platform named by
the matched canonical name; §8: names "default-linux" and "empty" resolve
through the external path to multi-element and empty lists respectively,
so they cannot be registry keys), the registry maps each single-platform
canonical name to its well-known `github:nix-systems` locator. -/
def NIX_SYSTEMS : Registry :=
  [("aarch64-linux", ⟨"github:nix-systems/aarch64-linux"⟩),
   ("aarch64-darwin", ⟨"github:nix-systems/aarch64-darwin"⟩),
   ("x86_64-linux", ⟨"github:nix-systems/x86_64-linux"⟩),
   ("x86_64-darwin", ⟨"github:nix-systems/x86_64-darwin"⟩)]

/-- Errors of the external-evaluator client (`nix_rs::command::NixCmdError`):
either the engine process failed (spawn failure / non-zero exit, with
diagnostics) or its stdout failed to decode as the requested type. -/
inductive NixCmdError where
  | processFailed (diag : String)
  | decodeFailed (msg : String)
deriving DecidableEq, Repr

/-- JSON values, as far as this core inspects them: step 1 decodes a JSON
string, step 2 decodes the caller-requested type (here: a string or a
list of system strings). -/
inductive Json where
  | str (s : String)
  | arr (elems : List Json)
  | other

/-- The external evaluation engine as an oracle: maps the argument vector
of one invocation to the JSON printed on stdout, or a failure. -/
def Engine : Type := List String → Except NixCmdError Json

/-- A typed JSON decoder (the `serde::de::DeserializeOwned` bound). -/
def Decoder (α : Type) : Type := Json → Option α

/-- Decoder for `String`. -/
def decodeString : Decoder String := fun j =>
  match j with
  | .str s => some s
  | _ => none

/-- Decoder for `Vec<System>`. -/
def decodeSystems : Decoder (List System) := fun j =>
  match j with
  | .arr es => es.mapM (fun e =>
      match e with
      | .str s => some (System.mk s)
      | _ => none)
  | _ => none

/-- Modelled from the spec: `NixCmd::run_with_args_expecting_json` lives in
the out-of-scope `nix_rs` crate; per spec §6 it invokes the engine with the
given arguments and decodes the engine's stdout as JSON of the requested
type, failing on process failure or undecodable output. Returns the result
together with the singleton trace of the invocation made. -/
def run_with_args_expecting_json {α : Type} (engine : Engine) (dec : Decoder α)
    (args : List String) : Except NixCmdError α × List (List String) :=
  (match engine args with
   | .error e => .error e
   | .ok j =>
     match dec j with
     | some v => .ok v
     | none => .error (.decodeFailed "stdout was not valid JSON of the expected type"),
   [args])

/-- The argument vector of one engine invocation for an expression:
`["eval", "--impure", "--json", "--expr", expr]`. -/
def evalArgs (expr : String) : List String :=
  ["eval", "--impure", "--json", "--expr", expr]

/-- `nix_eval_impure_expr`: run the engine on
`eval --impure --json --expr <expr>` and decode the JSON output. -/
def nix_eval_impure_expr {α : Type} (engine : Engine) (dec : Decoder α)
    (expr : String) : Except NixCmdError α × List (List String) :=
  run_with_args_expecting_json engine dec (evalArgs expr)

/-- The step-1 expression template: `builtins.getFlake "<url>"`. -/
def getFlakeExpr (url : FlakeUrl) : String :=
  "builtins.getFlake \"" ++ url.url ++ "\""

/-- The step-2 expression template: `import <flake-path>`. -/
def importExpr (flake_path : String) : String :=
  "import " ++ flake_path

/-- `nix_import_flake`: evaluate `import <flake-url>` in two chained engine
invocations — resolve the URL to a local path, then import that path —
returning the decoded result and the trace of invocations in order. -/
def nix_import_flake {α : Type} (engine : Engine) (dec : Decoder α)
    (url : FlakeUrl) : Except NixCmdError α × List (List String) :=
  match nix_eval_impure_expr engine decodeString (getFlakeExpr url) with
  | (.error e, t1) => (.error e, t1)
  | (.ok flake_path, t1) =>
    let r2 := nix_eval_impure_expr engine dec (importExpr flake_path)
    (r2.1, t1 ++ r2.2)

/-- `SystemsListFlakeRef::from_str`: if the input matches a name in the
registry, rewrite it to the registry's locator; otherwise the raw input
becomes the locator verbatim. Never fails. -/
def SystemsListFlakeRef.from_str (registry : Registry) (s : String) :
    Except String SystemsListFlakeRef :=
  let url :=
    match List.lookup s registry with
    | some nix_system_flake => nix_system_flake
    | none => FlakeUrl.mk s
  Except.ok (SystemsListFlakeRef.mk url)

/-- `SystemsList::from_known_flake`: reverse-lookup the locator among the
registry's values (`find_map` over iteration order); on a hit, the list is
the single matched canonical name converted to a `System`. -/
def SystemsList.from_known_flake (registry : Registry)
    (url : SystemsListFlakeRef) : Option SystemsList :=
  match registry.findSome? (fun p =>
      if p.2 = url.flakeUrl then some p.1 else none) with
  | none => none
  | some system => some (SystemsList.mk [System.mk system])

/-- `SystemsList::from_remote_flake`: import the flake through the engine
and wrap the decoded `Vec<System>`. -/
def SystemsList.from_remote_flake (engine : Engine)
    (url : SystemsListFlakeRef) : Except NixCmdError SystemsList × List (List String) :=
  match nix_import_flake engine decodeSystems url.flakeUrl with
  | (.error e, t) => (.error e, t)
  | (.ok systems, t) => (.ok (SystemsList.mk systems), t)

/-- `SystemsList::from_flake`: try the known-registry fast path, else fall
back to remote evaluation. The trace component records every engine
invocation made. -/
def SystemsList.from_flake (registry : Registry) (engine : Engine)
    (url : SystemsListFlakeRef) : Except NixCmdError SystemsList × List (List String) :=
  match SystemsList.from_known_flake registry url with
  | some systems => (.ok systems, [])
  | none => SystemsList.from_remote_flake engine url

/-- Modelled from the spec: `SubflakeConfig` lives in the out-of-scope
`config/subflake.rs`; per spec §3 it is an opaque per-unit configuration
record whose fields this core never interprets. -/
structure SubflakeConfig where
deriving DecidableEq, Repr

/-- `SubflakeConfig::default()` (the `Default` impl of the opaque record). -/
def SubflakeConfig.default : SubflakeConfig := {}

/-- `BTreeMap::insert` on a key-sorted association list: the embedding of
the `BTreeMap<String, SubflakeConfig>` insertion, keeping entries in
strictly ascending key order and replacing the value on an equal key. -/
def btreeInsert {α : Type} (k : String) (v : α) :
    List (String × α) → List (String × α)
  | [] => [(k, v)]
  | (k', v') :: t =>
    if k < k' then (k, v) :: (k', v') :: t
    else if k = k' then (k, v) :: t
    else (k', v') :: btreeInsert k v t

/-- `pub struct SubflakesConfig(pub BTreeMap<String, SubflakeConfig>)`,
with the map embedded as its iteration sequence (ascending key order). -/
structure SubflakesConfig where
  entries : List (String × SubflakeConfig)
deriving DecidableEq, Repr

/-- Build a `SubflakesConfig` by inserting the given entries, in the given
order, into an initially empty map — the construction path for any
externally supplied configuration. -/
def SubflakesConfig.ofInsertions (l : List (String × SubflakeConfig)) :
    SubflakesConfig :=
  SubflakesConfig.mk (l.foldl (fun acc p => btreeInsert p.1 p.2 acc) [])

/-- `SubflakesConfig::default()`: start from an empty map, insert the
single entry for the root flake under the sentinel key `"<root>"`. -/
def SubflakesConfig.default : SubflakesConfig :=
  SubflakesConfig.mk (btreeInsert "<root>" SubflakeConfig.default [])

/-- The iteration order of the keys of a `SubflakesConfig`. -/
def SubflakesConfig.keys (c : SubflakesConfig) : List String :=
  c.entries.map Prod.fst

/-- Every key of `btreeInsert k v l` is `k` or a key of `l`. -/
theorem mem_keys_btreeInsert {α : Type} (k : String) (v : α)
    (l : List (String × α)) (x : String)
    (hx : x ∈ (btreeInsert k v l).map Prod.fst) :
    x = k ∨ x ∈ l.map Prod.fst := by
  induction l with
  | nil =>
    simp only [btreeInsert, List.map_cons, List.map_nil, List.mem_singleton] at hx
    exact Or.inl hx
  | cons p t ih =>
    obtain ⟨k', v'⟩ := p
    by_cases h1 : k < k'
    · simp only [btreeInsert, if_pos h1, List.map_cons, List.mem_cons] at hx
      simp only [List.map_cons, List.mem_cons]
      tauto
    · by_cases h2 : k = k'
      · simp only [btreeInsert, if_neg h1, if_pos h2, List.map_cons, List.mem_cons] at hx
        simp only [List.map_cons, List.mem_cons]
        tauto
      · simp only [btreeInsert, if_neg h1, if_neg h2, List.map_cons, List.mem_cons] at hx
        simp only [List.map_cons, List.mem_cons]
        rcases hx with hx | hx
        · tauto
        · rcases ih hx with h | h <;> tauto

/-- `btreeInsert` preserves strict ascending sortedness of the keys. -/
theorem sorted_keys_btreeInsert {α : Type} (k : String) (v : α)
    (l : List (String × α)) (h : ((l.map Prod.fst)).Sorted (· < ·)) :
    (((btreeInsert k v l).map Prod.fst)).Sorted (· < ·) := by
  induction l with
  | nil => simp [btreeInsert]
  | cons p t ih =>
    obtain ⟨k', v'⟩ := p
    simp only [List.map_cons, List.sorted_cons] at h
    obtain ⟨hk', ht⟩ := h
    by_cases h1 : k < k'
    · simp only [btreeInsert, if_pos h1, List.map_cons, List.sorted_cons]
      refine ⟨?_, hk', ht⟩
      intro b hb
      rcases List.mem_cons.mp hb with rfl | hb
      · exact h1
      · exact lt_trans h1 (hk' b hb)
    · by_cases h2 : k = k'
      · simp only [btreeInsert, if_neg h1, if_pos h2, List.map_cons, List.sorted_cons]
        exact ⟨fun b hb => h2 ▸ hk' b hb, ht⟩
      · have h3 : k' < k := by
          rcases lt_trichotomy k k' with h | h | h
          · exact absurd h h1
          · exact absurd h h2
          · exact h
        simp only [btreeInsert, if_neg h1, if_neg h2, List.map_cons, List.sorted_cons]
        refine ⟨?_, ih ht⟩
        intro b hb
        rcases mem_keys_btreeInsert k v t b hb with rfl | hb
        · exact h3
        · exact hk' b hb

/-- Folding `btreeInsert` over any insertion sequence preserves key
sortedness of the accumulator. -/
theorem sorted_keys_foldl_btreeInsert (l : List (String × SubflakeConfig))
    (acc : List (String × SubflakeConfig))
    (hacc : ((acc.map Prod.fst)).Sorted (· < ·)) :
    (((l.foldl (fun acc p => btreeInsert p.1 p.2 acc) acc).map Prod.fst)).Sorted
      (· < ·) := by
  induction l generalizing acc with
  | nil => exact hacc
  | cons p t ih =>
    exact ih (btreeInsert p.1 p.2 acc) (sorted_keys_btreeInsert p.1 p.2 acc hacc)

/-- Claim C2: for every `SubflakesConfig`, in whatever order entries were
inserted, iteration yields entries in strictly ascending lexicographic
order of their string keys; in particular inserting keys "b", "a", "c" in
that order yields iteration order "a", "b", "c". -/
theorem subflakesConfig_iteration_sorted (l : List (String × SubflakeConfig)) :
    (((SubflakesConfig.ofInsertions l).keys).Sorted (· < ·)) ∧
    (SubflakesConfig.ofInsertions
        [("b", SubflakeConfig.default), ("a", SubflakeConfig.default),
         ("c", SubflakeConfig.default)]).keys = ["a", "b", "c"] := by
  constructor
  · exact sorted_keys_foldl_btreeInsert l [] (by simp)
  · have h1 : ("a" : String) < "b" := by rw [String.lt_iff_toList_lt]; decide
    have h2 : ¬ ("c" : String) < "a" := by rw [String.lt_iff_toList_lt]; decide
    have h3 : ¬ ("c" : String) < "b" := by rw [String.lt_iff_toList_lt]; decide
    have h4 : ("c" : String) ≠ "a" := by decide
    have h5 : ("c" : String) ≠ "b" := by decide
    simp [SubflakesConfig.ofInsertions, btreeInsert, SubflakesConfig.keys,
      h1, h2, h3, h4, h5]

/-- Claim C7: `SubflakesConfig::default()` returns a collection containing
exactly one entry, whose key is the reserved sentinel name `"<root>"` and
whose value is the default `SubflakeConfig`; being a pure value, it is the
same on every use (idempotent and side-effect-free). -/
theorem subflakesConfig_default_single :
    SubflakesConfig.default.entries = [("<root>", SubflakeConfig.default)] ∧
    SubflakesConfig.default.entries.length = 1 :=
  ⟨rfl, rfl⟩

/-- Claim C10: `SystemsListFlakeRef::from_str` returns `Ok` on every input
string; although its signature declares error type `String`, the error
branch is unreachable. -/
theorem from_str_never_fails (registry : Registry) (s : String) :
    ∃ r, SystemsListFlakeRef.from_str registry s = Except.ok r :=
  ⟨_, rfl⟩

/-- Claim C6: constructing a `SystemsListFlakeRef` from a string `s` yields
the registry's associated full locator when `s` is a key of the registry,
and otherwise yields `s` itself verbatim as the locator; no other
rewriting occurs. -/
theorem from_str_normalizes (registry : Registry) (s : String) :
    (∀ u, List.lookup s registry = some u →
      SystemsListFlakeRef.from_str registry s =
        Except.ok (SystemsListFlakeRef.mk u)) ∧
    (List.lookup s registry = none →
      SystemsListFlakeRef.from_str registry s =
        Except.ok (SystemsListFlakeRef.mk (FlakeUrl.mk s))) := by
  constructor
  · intro u hu
    simp [SystemsListFlakeRef.from_str, hu]
  · intro hu
    simp [SystemsListFlakeRef.from_str, hu]

/-- Witness for C6 at concrete inputs: the registry key "aarch64-linux" is
rewritten to its full locator, while an arbitrary non-key string passes
through verbatim. -/
theorem from_str_normalizes_witness :
    SystemsListFlakeRef.from_str NIX_SYSTEMS "aarch64-linux" =
      Except.ok (SystemsListFlakeRef.mk
        (FlakeUrl.mk "github:nix-systems/aarch64-linux")) ∧
    SystemsListFlakeRef.from_str NIX_SYSTEMS "github:nix-systems/empty" =
      Except.ok (SystemsListFlakeRef.mk
        (FlakeUrl.mk "github:nix-systems/empty")) :=
  ⟨(from_str_normalizes NIX_SYSTEMS "aarch64-linux").1
      (FlakeUrl.mk "github:nix-systems/aarch64-linux") (by decide),
   (from_str_normalizes NIX_SYSTEMS "github:nix-systems/empty").2 (by decide)⟩

/-- Claim C9: the fast-path reverse lookup is deterministic — it is a pure
function of the registry (in its iteration order) and the locator, and when
an entry with the sought locator exists, the result is the canonical name
of the first such entry in iteration order, even when several names map to
the same locator. -/
theorem from_known_flake_first_match (l1 l2 : Registry) (n : String)
    (u : FlakeUrl) (h : ∀ p ∈ l1, p.2 ≠ u) :
    SystemsList.from_known_flake (l1 ++ (n, u) :: l2)
        (SystemsListFlakeRef.mk u) =
      some (SystemsList.mk [System.mk n]) := by
  induction l1 with
  | nil => simp [SystemsList.from_known_flake]
  | cons p t ih =>
    have hp : p.2 ≠ u := h p (List.mem_cons_self p t)
    have ht : ∀ q ∈ t, q.2 ≠ u := fun q hq => h q (List.mem_cons_of_mem p hq)
    simpa [SystemsList.from_known_flake, List.findSome?_cons, hp] using ih ht

/-- Witness for C9: a registry in which two names ("b" and "c") map to the
same locator; the reverse lookup returns the first one in iteration
order. -/
theorem from_known_flake_first_match_witness :
    SystemsList.from_known_flake
        [("a", FlakeUrl.mk "L0"), ("b", FlakeUrl.mk "L1"),
         ("c", FlakeUrl.mk "L1")]
        (SystemsListFlakeRef.mk (FlakeUrl.mk "L1")) =
      some (SystemsList.mk [System.mk "b"]) :=
  from_known_flake_first_match [("a", FlakeUrl.mk "L0")]
    [("c", FlakeUrl.mk "L1")] "b" (FlakeUrl.mk "L1") (by decide)

/-- Claim C1: for every canonical name `n` that is a key of the registry,
resolving the locator obtained by normalizing `n` returns `Ok` of a
one-element `SystemsList` whose sole element is `n` converted to a
`System`, and the external evaluator is never invoked (the invocation
trace is empty), whatever the engine would do. -/
theorem from_flake_known_name (engine : Engine) (n : String) (u : FlakeUrl)
    (h : (n, u) ∈ NIX_SYSTEMS) :
    ∃ locator, SystemsListFlakeRef.from_str NIX_SYSTEMS n =
        Except.ok locator ∧
      SystemsList.from_flake NIX_SYSTEMS engine locator =
        (Except.ok (SystemsList.mk [System.mk n]), []) := by
  simp only [NIX_SYSTEMS, List.mem_cons, List.not_mem_nil, or_false,
    Prod.mk.injEq] at h
  rcases h with ⟨rfl, rfl⟩ | ⟨rfl, rfl⟩ | ⟨rfl, rfl⟩ | ⟨rfl, rfl⟩ <;>
    exact ⟨_, rfl, rfl⟩

/-- Witness for C1 at the concrete registry key "x86_64-linux", with an
engine that fails on every invocation (and is indeed never consulted). -/
theorem from_flake_known_name_witness :
    ∃ locator, SystemsListFlakeRef.from_str NIX_SYSTEMS "x86_64-linux" =
        Except.ok locator ∧
      SystemsList.from_flake NIX_SYSTEMS
          (fun _ => Except.error (NixCmdError.processFailed "unused"))
          locator =
        (Except.ok (SystemsList.mk [System.mk "x86_64-linux"]), []) :=
  from_flake_known_name
    (fun _ => Except.error (NixCmdError.processFailed "unused"))
    "x86_64-linux" (FlakeUrl.mk "github:nix-systems/x86_64-linux") (by decide)

/-- Claim C5: for every name `n` in the registry, the locators constructed
from the bare name `n` and from `n`'s full locator string coincide, and
hence both resolve to the identical `SystemsList` (with identical
invocation traces), whatever the engine. -/
theorem from_flake_roundtrip (engine : Engine) (n : String) (u : FlakeUrl)
    (h : (n, u) ∈ NIX_SYSTEMS) :
    ∃ ln lu, SystemsListFlakeRef.from_str NIX_SYSTEMS n = Except.ok ln ∧
      SystemsListFlakeRef.from_str NIX_SYSTEMS u.url = Except.ok lu ∧
      SystemsList.from_flake NIX_SYSTEMS engine ln =
        SystemsList.from_flake NIX_SYSTEMS engine lu := by
  simp only [NIX_SYSTEMS, List.mem_cons, List.not_mem_nil, or_false,
    Prod.mk.injEq] at h
  rcases h with ⟨rfl, rfl⟩ | ⟨rfl, rfl⟩ | ⟨rfl, rfl⟩ | ⟨rfl, rfl⟩ <;>
    exact ⟨_, _, rfl, rfl, rfl⟩

/-- Witness for C5 at the concrete registry key "aarch64-darwin", with an
engine that fails on every invocation. -/
theorem from_flake_roundtrip_witness :
    ∃ ln lu, SystemsListFlakeRef.from_str NIX_SYSTEMS "aarch64-darwin" =
        Except.ok ln ∧
      SystemsListFlakeRef.from_str NIX_SYSTEMS
          "github:nix-systems/aarch64-darwin" = Except.ok lu ∧
      SystemsList.from_flake NIX_SYSTEMS
          (fun _ => Except.error (NixCmdError.processFailed "unused")) ln =
        SystemsList.from_flake NIX_SYSTEMS
          (fun _ => Except.error (NixCmdError.processFailed "unused")) lu :=
  from_flake_roundtrip
    (fun _ => Except.error (NixCmdError.processFailed "unused"))
    "aarch64-darwin" (FlakeUrl.mk "github:nix-systems/aarch64-darwin")
    (by decide)

/-- Unfolding lemma for `nix_import_flake`: the call is determined by the
outcome of step 1, and the invocation trace is the one-element or
two-element sequence of the steps actually taken, in order. -/
theorem nix_import_flake_eq {α : Type} (engine : Engine) (dec : Decoder α)
    (url : FlakeUrl) :
    nix_import_flake engine dec url =
      match (nix_eval_impure_expr engine decodeString (getFlakeExpr url)).1 with
      | .error e => (.error e, [evalArgs (getFlakeExpr url)])
      | .ok flake_path =>
        ((nix_eval_impure_expr engine dec (importExpr flake_path)).1,
         [evalArgs (getFlakeExpr url), evalArgs (importExpr flake_path)]) := by
  have h2 : nix_eval_impure_expr engine decodeString (getFlakeExpr url) =
      ((nix_eval_impure_expr engine decodeString (getFlakeExpr url)).1,
       [evalArgs (getFlakeExpr url)]) := rfl
  cases hfst : (nix_eval_impure_expr engine decodeString (getFlakeExpr url)).1 with
  | error e =>
    unfold nix_import_flake
    rw [h2, hfst]
  | ok p =>
    unfold nix_import_flake
    rw [h2, hfst]
    rfl

/-- Claim C4: `nix_import_flake` performs its two external-evaluator steps
strictly in order: if step 1 fails with any error, the whole call returns
that error and step 2 is never attempted (the trace holds step 1 alone);
if step 1 succeeds, the trace holds the two steps in order and the result
is step 2's; and an `Ok` result implies both steps succeeded — no partial
result is returned on failure. -/
theorem nix_import_flake_sequencing {α : Type} (engine : Engine)
    (dec : Decoder α) (url : FlakeUrl) :
    (∀ e, (nix_eval_impure_expr engine decodeString (getFlakeExpr url)).1 =
        Except.error e →
      nix_import_flake engine dec url =
        (Except.error e, [evalArgs (getFlakeExpr url)])) ∧
    (∀ p, (nix_eval_impure_expr engine decodeString (getFlakeExpr url)).1 =
        Except.ok p →
      nix_import_flake engine dec url =
        ((nix_eval_impure_expr engine dec (importExpr p)).1,
         [evalArgs (getFlakeExpr url), evalArgs (importExpr p)])) ∧
    (∀ v, (nix_import_flake engine dec url).1 = Except.ok v →
      ∃ p, (nix_eval_impure_expr engine decodeString (getFlakeExpr url)).1 =
          Except.ok p ∧
        (nix_eval_impure_expr engine dec (importExpr p)).1 = Except.ok v) := by
  refine ⟨?_, ?_, ?_⟩
  · intro e he
    rw [nix_import_flake_eq, he]
  · intro p hp
    rw [nix_import_flake_eq, hp]
  · intro v hv
    rw [nix_import_flake_eq] at hv
    cases h : (nix_eval_impure_expr engine decodeString (getFlakeExpr url)).1 with
    | error e => rw [h] at hv; simp at hv
    | ok p =>
      rw [h] at hv
      exact ⟨p, rfl, hv⟩

/-- Witness for C4: an engine whose every invocation fails to spawn; the
call returns that step-1 error with a single-invocation trace. -/
theorem nix_import_flake_sequencing_witness :
    nix_import_flake
        (fun _ => Except.error (NixCmdError.processFailed "spawn failed"))
        decodeString (FlakeUrl.mk "github:example/repo") =
      (Except.error (NixCmdError.processFailed "spawn failed"),
       [evalArgs (getFlakeExpr (FlakeUrl.mk "github:example/repo"))]) :=
  (nix_import_flake_sequencing
      (fun _ => Except.error (NixCmdError.processFailed "spawn failed"))
      decodeString (FlakeUrl.mk "github:example/repo")).1
    (NixCmdError.processFailed "spawn failed") rfl

/-- Claim C3: the name "empty" is not a registry key, so it normalizes to
itself and misses the fast path; whenever the engine resolves that source
to a flake whose imported value is the empty JSON array (which is what the
registry-denoted "empty" source contains), resolution returns `Ok` of an
empty `SystemsList` — not an error and not a non-empty list. -/
theorem from_flake_empty (engine : Engine) (p : String)
    (h1 : engine (evalArgs (getFlakeExpr (FlakeUrl.mk "empty"))) =
      Except.ok (Json.str p))
    (h2 : engine (evalArgs (importExpr p)) = Except.ok (Json.arr [])) :
    ∃ locator, SystemsListFlakeRef.from_str NIX_SYSTEMS "empty" =
        Except.ok locator ∧
      (SystemsList.from_flake NIX_SYSTEMS engine locator).1 =
        Except.ok (SystemsList.mk []) := by
  refine ⟨SystemsListFlakeRef.mk (FlakeUrl.mk "empty"), rfl, ?_⟩
  have e1 : (nix_eval_impure_expr engine decodeString
      (getFlakeExpr (FlakeUrl.mk "empty"))).1 = Except.ok p := by
    unfold nix_eval_impure_expr run_with_args_expecting_json
    rw [h1]
    rfl
  have e2 : (nix_eval_impure_expr engine decodeSystems (importExpr p)).1 =
      Except.ok [] := by
    unfold nix_eval_impure_expr run_with_args_expecting_json
    rw [h2]
    rfl
  have hi : (nix_import_flake engine decodeSystems (FlakeUrl.mk "empty")).1 =
      Except.ok [] := by
    rw [nix_import_flake_eq, e1]
    exact e2
  show (SystemsList.from_remote_flake engine
      (SystemsListFlakeRef.mk (FlakeUrl.mk "empty"))).1 =
    Except.ok (SystemsList.mk [])
  have h3 : nix_import_flake engine decodeSystems (FlakeUrl.mk "empty") =
      (Except.ok [],
       (nix_import_flake engine decodeSystems (FlakeUrl.mk "empty")).2) := by
    rw [← hi]
  unfold SystemsList.from_remote_flake
  rw [h3]

/-- Witness for C3: a concrete engine that resolves the "empty" source to
the path "/nix/store/empty-src" and imports it as the empty JSON array. -/
theorem from_flake_empty_witness :
    ∃ locator, SystemsListFlakeRef.from_str NIX_SYSTEMS "empty" =
        Except.ok locator ∧
      (SystemsList.from_flake NIX_SYSTEMS
          (fun args =>
            if args = evalArgs (getFlakeExpr (FlakeUrl.mk "empty"))
            then Except.ok (Json.str "/nix/store/empty-src")
            else if args = evalArgs (importExpr "/nix/store/empty-src")
            then Except.ok (Json.arr [])
            else Except.error (NixCmdError.processFailed "unexpected"))
          locator).1 = Except.ok (SystemsList.mk []) :=
  from_flake_empty
    (fun args =>
      if args = evalArgs (getFlakeExpr (FlakeUrl.mk "empty"))
      then Except.ok (Json.str "/nix/store/empty-src")
      else if args = evalArgs (importExpr "/nix/store/empty-src")
      then Except.ok (Json.arr [])
      else Except.error (NixCmdError.processFailed "unexpected"))
    "/nix/store/empty-src" rfl rfl

/-- Claim C8: every invocation `nix_import_flake` makes runs the engine
with arguments of the form `eval --impure --json --expr <e>`; the first
(and head) invocation's expression resolves the locator via
`builtins.getFlake`, and on step-1 success with path `p` the trace is
exactly the two invocations, the second importing `p`. -/
theorem nix_import_flake_protocol {α : Type} (engine : Engine)
    (dec : Decoder α) (url : FlakeUrl) :
    (∀ args ∈ (nix_import_flake engine dec url).2,
      ∃ e, args = ["eval", "--impure", "--json", "--expr", e]) ∧
    ((nix_import_flake engine dec url).2.head? =
      some ["eval", "--impure", "--json", "--expr", getFlakeExpr url]) ∧
    (∀ p, (nix_eval_impure_expr engine decodeString (getFlakeExpr url)).1 =
        Except.ok p →
      (nix_import_flake engine dec url).2 =
        [["eval", "--impure", "--json", "--expr", getFlakeExpr url],
         ["eval", "--impure", "--json", "--expr", importExpr p]]) := by
  cases hfst : (nix_eval_impure_expr engine decodeString (getFlakeExpr url)).1 with
  | error e =>
    have ht : (nix_import_flake engine dec url).2 =
        [evalArgs (getFlakeExpr url)] := by
      rw [nix_import_flake_eq, hfst]
    refine ⟨?_, ?_, ?_⟩
    · intro args hargs
      rw [ht] at hargs
      simp only [List.mem_singleton] at hargs
      exact ⟨getFlakeExpr url, by rw [hargs]; rfl⟩
    · rw [ht]; rfl
    · intro p hp
      simp at hp
  | ok q =>
    have ht : (nix_import_flake engine dec url).2 =
        [evalArgs (getFlakeExpr url), evalArgs (importExpr q)] := by
      rw [nix_import_flake_eq, hfst]
    refine ⟨?_, ?_, ?_⟩
    · intro args hargs
      rw [ht] at hargs
      rcases List.mem_cons.mp hargs with rfl | hargs
      · exact ⟨getFlakeExpr url, rfl⟩
      · simp only [List.mem_singleton] at hargs
        exact ⟨importExpr q, by rw [hargs]; rfl⟩
    · rw [ht]; rfl
    · intro p hp
      injection hp with hqp
      subst hqp
      rw [ht]
      rfl

/-- Witness for C8: a concrete engine that resolves
"github:example/repo" to the path "/nix/store/repo" and imports it as an
empty list; the trace is exactly the two protocol invocations in order. -/
theorem nix_import_flake_protocol_witness :
    (nix_import_flake
        (fun args =>
          if args = evalArgs (getFlakeExpr (FlakeUrl.mk "github:example/repo"))
          then Except.ok (Json.str "/nix/store/repo")
          else Except.ok (Json.arr []))
        decodeSystems (FlakeUrl.mk "github:example/repo")).2 =
      [["eval", "--impure", "--json", "--expr",
        getFlakeExpr (FlakeUrl.mk "github:example/repo")],
       ["eval", "--impure", "--json", "--expr",
        importExpr "/nix/store/repo"]] :=
  (nix_import_flake_protocol
      (fun args =>
        if args = evalArgs (getFlakeExpr (FlakeUrl.mk "github:example/repo"))
        then Except.ok (Json.str "/nix/store/repo")
        else Except.ok (Json.arr []))
      decodeSystems (FlakeUrl.mk "github:example/repo")).2.2
    "/nix/store/repo" rfl

end Omnix
